import Mathlib

/-!
Verification development for the monistode binutils core: a shallow embedding
of the bit-addressed object-file container, the placer and the linker, with
theorems checking the claims of the specification against the code.

Conventions of the embedding:
* machine integers become Nat / Int with explicit modular reduction where the
  source wraps (u16 arithmetic is mod 65536, u32 fields are reduced mod 2^32
  at the byte level);
* byte buffers are List Nat (every element below 256 by construction),
  bit buffers are List Bool;
* fallible Rust code returns Except, and a Rust panic (out-of-bounds index or
  slice) is modelled by Option: a result of none marks a panic.
-/

set_option maxRecDepth 10000

/-- Decidable equality for Except results, so concrete runs of the embedded
decoders can be checked by evaluation. -/
instance {e a : Type} [DecidableEq e] [DecidableEq a] : DecidableEq (Except e a) := fun x y =>
  match x, y with
  | .ok u, .ok v => if h : u = v then isTrue (by rw [h]) else isFalse (by simp [h])
  | .error u, .error v => if h : u = v then isTrue (by rw [h]) else isFalse (by simp [h])
  | .ok _, .error _ => isFalse (by simp)
  | .error _, .ok _ => isFalse (by simp)

namespace Binutils

/-- Bit at position i of a bit buffer; out-of-range positions read as false,
matching the guarded accesses in src/address.rs. -/
def bitAt (buf : List Bool) (i : Nat) : Bool :=
  buf.getD i false

/-- Loop body accumulator of AddressIndexable::index (src/address.rs lines
27-36): for each loop index i the accumulator is doubled and the guarded bit
at index.0 + i is added. The list is the sequence of loop indices. -/
def index16Go (buf : List Bool) (idx : Nat) : List Nat → Nat → Nat
  | [], acc => acc
  | i :: is, acc =>
      index16Go buf idx is
        (acc * 2 + (if idx + i < buf.length ∧ bitAt buf (idx + i) = true then 1 else 0))

/-- AddressIndexable::index for u16 (src/address.rs): reads 16 bits MSB-first
starting at the bit offset idx, missing bits treated as 0. -/
def index16 (buf : List Bool) (idx : Nat) : Nat :=
  index16Go buf idx (List.range 16) 0

/-- BitVec::set of the bitvec crate panics when the position is out of
bounds; the panic is modelled as none. -/
def setBit (buf : List Bool) (j : Nat) (b : Bool) : Option (List Bool) :=
  if j < buf.length then some (buf.set j b) else none

/-- Loop of AddressIndexable::write (src/address.rs lines 38-46): for each
loop index i, when index.0 + i is in range the bit at index.0 + 15 - i is set
to the low bit of the current value and the value is shifted right once.
Note the guard tests position idx + i while the write goes to idx + 15 - i;
this mirrors the source exactly. -/
def write16Go (idx : Nat) : List Nat → Nat → List Bool → Option (List Bool)
  | [], _, buf => some buf
  | i :: is, v, buf =>
      if idx + i < buf.length then
        match setBit buf (idx + 15 - i) (v % 2 = 1) with
        | none => none
        | some buf2 => write16Go idx is (v / 2) buf2
      else
        write16Go idx is v buf

/-- AddressIndexable::write for u16 (src/address.rs): writes the 16 bits of
the value MSB-first at the bit offset idx. -/
def write16 (buf : List Bool) (idx v : Nat) : Option (List Bool) :=
  write16Go idx (List.range 16) v buf

/-- Value of a stream of k bits read most-significant-bit first: bit 0 of
the stream carries weight 2^(k-1).  Proof-layer companion of the index16
loop. -/
def msbVal : Nat → (Nat → Bool) → Nat
  | 0, _ => 0
  | k + 1, c => (if c 0 then 2 ^ k else 0) + msbVal k fun j => c (j + 1)

/-- Closed error taxonomy of src/serializable.rs. -/
inductive SerializationError where
  | invalidArchitecture (b : Nat)
  | invalidSectionType (b : Nat)
  | invalidSegmentType (b : Nat)
  | invalidSymbolTableHeader
  | invalidData
  | dataTooShort
deriving DecidableEq, Repr

/-- Architecture enum of src/serializable.rs: only Stack (= 0) and
Risc (= 2) exist in the source. -/
inductive Architecture where
  | stack
  | risc
deriving DecidableEq, Repr

/-- The discriminant value used by the derived as-u8 cast (Stack = 0,
Risc = 2). -/
def Architecture.toByte : Architecture → Nat
  | .stack => 0
  | .risc => 2

/-- Architecture::try_from of src/serializable.rs lines 22-32. -/
def Architecture.ofByte (b : Nat) : Except SerializationError Architecture :=
  match b with
  | 0 => .ok .stack
  | 2 => .ok .risc
  | v => .error (.invalidArchitecture v)

/-- The text byte width table of Section::to_segment
(src/object_file/sections/common.rs lines 57-61), restricted to the
architectures that exist in the enum. -/
def textByteWidth : Architecture → Nat
  | .stack => 6
  | .risc => 8

/-- Symbol names are byte strings (non-empty, NUL-free at the wire level);
a symbol is a name with a bit address (src/symbols.rs). -/
structure Symbol where
  name : List Nat
  address : Nat
deriving DecidableEq, Repr

/-- A relocation records a symbol name, the bit address of the 16-bit patch
site and the absolute/relative flag (src/object_file/relocations.rs). -/
structure Relocation where
  symbol : List Nat
  address : Nat
  relative : Bool
deriving DecidableEq, Repr

/-- A text section: bit buffer plus owned symbols and relocations
(src/object_file/sections: the data/symbols fields are in text.rs, the
relocations field is the one Section::to_segment and ObjectFile::deserialize
use in common.rs and mod.rs). -/
structure TextSection where
  data : List Bool
  symbols : List Symbol
  relocations : List Relocation
deriving DecidableEq, Repr

/-- Section enum of src/object_file/sections/common.rs. -/
inductive Section where
  | text (t : TextSection)
deriving DecidableEq, Repr

def Section.symbols : Section → List Symbol
  | .text t => t.symbols

def Section.relocations : Section → List Relocation
  | .text t => t.relocations

def Section.bitLength : Section → Nat
  | .text t => t.data.length

/-- Linker error taxonomy (src/object_file/placed/mod.rs lines 5-9). -/
inductive LinkerError where
  | symbolNotFound (name : List Nat)
  | relocationOutOfRange (name : List Nat)
deriving DecidableEq, Repr

/-- Address-space tags of src/object_file/placed/mod.rs lines 16-21. -/
inductive SectionType where
  | textSpace
  | dataSpace
  | unified
deriving DecidableEq, Repr

/-- A section together with its placement offset, stored in text-bytes
(src/object_file/placed/mod.rs lines 11-14). -/
structure PlacedSection where
  «section» : Section
  offset : Nat
deriving DecidableEq, Repr

/-- PlacedSection::new starts at offset 0. -/
def PlacedSection.new (s : Section) : PlacedSection :=
  { «section» := s, offset := 0 }

/-- PlacedSection::section_type (src/object_file/placed/mod.rs lines 32-34):
always Unified in the source. -/
def PlacedSection.sectionType (_ : PlacedSection) : SectionType :=
  .unified

/-- PlacedSection::size (src/object_file/placed/mod.rs lines 40-47): size in
text-bytes, rounded up.  (The source matches only the Stack architecture
there; the width table is the one Section::to_segment uses.) -/
def PlacedSection.size (ps : PlacedSection) (arch : Architecture) : Nat :=
  match ps.«section» with
  | .text t => (t.data.length + textByteWidth arch - 1) / textByteWidth arch

/-- Symbol scan of PlacedSection::find_symbol (src/object_file/placed/mod.rs
lines 49-56): the first symbol with the given name yields
symbol.address + self.offset (the Address + usize instance adds the raw
offset to the bit address). -/
def findSymbolInList (syms : List Symbol) (name : List Nat) (off : Nat) : Option Nat :=
  match syms with
  | [] => none
  | s :: rest => if s.name = name then some (s.address + off) else findSymbolInList rest name off

def PlacedSection.findSymbol (ps : PlacedSection) (name : List Nat) : Option Nat :=
  findSymbolInList ps.«section».symbols name ps.offset

/-- The placement: sections in supplied order plus the architecture
(src/object_file/placed/mod.rs lines 63-66). -/
structure Placement where
  sections : List PlacedSection
  architecture : Architecture
deriving DecidableEq, Repr

/-- Section scan of Placement::find_symbol (src/object_file/placed/mod.rs
lines 80-87): first section whose own scan succeeds wins. -/
def findSymbolInSections (secs : List PlacedSection) (name : List Nat) : Option Nat :=
  match secs with
  | [] => none
  | ps :: rest =>
      match ps.findSymbol name with
      | some a => some a
      | none => findSymbolInSections rest name

def Placement.findSymbol (p : Placement) (name : List Nat) : Option Nat :=
  findSymbolInSections p.sections name

/-- One pass of Placement::place for a single address space
(src/object_file/placed/mod.rs lines 89-107): sections of that space are
assigned consecutive offsets, the others are left untouched. -/
def placePass (arch : Architecture) (space : SectionType) :
    List PlacedSection → Nat → List PlacedSection
  | [], _ => []
  | ps :: rest, lastEnd =>
      if ps.sectionType = space then
        let moved : PlacedSection := { ps with offset := lastEnd }
        moved :: placePass arch space rest (moved.offset + moved.size arch)
      else
        ps :: placePass arch space rest lastEnd

/-- Placement::place: the three address spaces are laid out independently,
each starting at 0. -/
def Placement.place (p : Placement) : Placement :=
  let s1 := placePass p.architecture .textSpace p.sections 0
  let s2 := placePass p.architecture .dataSpace s1 0
  let s3 := placePass p.architecture .unified s2 0
  { p with sections := s3 }

/-- Segment flags (src/executable/segments/flags.rs). -/
structure SegmentFlags where
  executable : Bool
  writable : Bool
  readable : Bool
  special : Bool
deriving DecidableEq, Repr

/-- A loadable segment (src/executable/segments/common.rs lines 7-15). -/
structure Segment where
  address_space_start : Nat
  address_space_size : Nat
  disk_bit_count : Nat
  flags : SegmentFlags
  data : List Bool
  symbols : List Symbol
deriving DecidableEq, Repr

/-- The i64-to-u16 cast of the patch value (offset as u16 in
src/object_file/sections/common.rs line 82): the low 16 bits in
twos-complement form, which is the value modulo 2^16. -/
def u16ofInt (o : Int) : Nat :=
  (o % 65536).toNat

/-- The signed instruction-word offset of one relocation
(src/object_file/sections/common.rs lines 71-75): displacement in bits,
divided by the text byte width with i64 division (truncation toward zero). -/
def relocWordOffset (symAddr : Nat) (r : Relocation) (w : Nat) : Int :=
  Int.tdiv (if r.relative then (symAddr : Int) - (r.address : Int) else (symAddr : Int)) (w : Int)

/-- Loop body of the relocation pass in Section::to_segment
(src/object_file/sections/common.rs lines 65-84): resolve the symbol, bound
the word offset by plus/minus 2^16, then add it (wrapping u16) to the
16-bit field at the relocation site. -/
def relocStep (p : Placement) (w : Nat) (buf : List Bool) (r : Relocation) :
    Option (Except LinkerError (List Bool)) :=
  match p.findSymbol r.symbol with
  | none => some (.error (.symbolNotFound r.symbol))
  | some symAddr =>
      let off := relocWordOffset symAddr r w
      if 65536 < off ∨ off < -65536 then
        some (.error (.relocationOutOfRange r.symbol))
      else
        match write16 buf r.address ((index16 buf r.address + u16ofInt off) % 65536) with
        | none => none
        | some buf2 => some (.ok buf2)

/-- The relocation loop over the relocation list of a section. -/
def relocFold (p : Placement) (w : Nat) : List Relocation → List Bool →
    Option (Except LinkerError (List Bool))
  | [], buf => some (.ok buf)
  | r :: rs, buf =>
      match relocStep p w buf r with
      | none => none
      | some (.error e) => some (.error e)
      | some (.ok buf2) => relocFold p w rs buf2

/-- Section::to_segment (src/object_file/sections/common.rs lines 56-100):
patch a clone of the bit buffer, then wrap it in a read/execute segment whose
start is the placement offset and whose size is the bit length in
text-bytes, rounded up. -/
def Section.toSegment (s : Section) (p : Placement) (offset : Nat) :
    Option (Except LinkerError Segment) :=
  let w := textByteWidth p.architecture
  match s with
  | .text t =>
      match relocFold p w t.relocations t.data with
      | none => none
      | some (.error e) => some (.error e)
      | some (.ok buf) =>
          some (.ok
            { address_space_start := offset
              address_space_size := (buf.length + w - 1) / w
              disk_bit_count := buf.length
              flags := { executable := true, writable := false, readable := true, special := false }
              data := buf
              symbols := t.symbols })

/-- Placement::as_segments (src/object_file/placed/mod.rs lines 109-114):
collect to_segment over the sections in placement order, aborting on the
first error. -/
def asSegmentsGo (p : Placement) : List PlacedSection → Option (Except LinkerError (List Segment))
  | [] => some (.ok [])
  | ps :: rest =>
      match ps.«section».toSegment p ps.offset with
      | none => none
      | some (.error e) => some (.error e)
      | some (.ok seg) =>
          match asSegmentsGo p rest with
          | none => none
          | some (.error e) => some (.error e)
          | some (.ok segs) => some (.ok (seg :: segs))

def Placement.asSegments (p : Placement) : Option (Except LinkerError (List Segment)) :=
  asSegmentsGo p p.sections

/-- Executable header (src/executable/header.rs lines 3-8). -/
structure ExecutableHeader where
  architecture : Architecture
  segment_count : Nat
  entry_point : Nat
deriving DecidableEq, Repr

/-- ExecutableHeader::new (src/executable/header.rs lines 43-51): the entry
point is left at 0 (TODO in the source). -/
def ExecutableHeader.new (arch : Architecture) (segmentCount : Nat) : ExecutableHeader :=
  { architecture := arch, segment_count := segmentCount, entry_point := 0 }

/-- The executable container (src/executable/mod.rs lines 9-13). -/
structure Executable where
  header : ExecutableHeader
  segments : List Segment
deriving DecidableEq, Repr

/-- Executable::new (src/executable/mod.rs lines 143-149): header built by
ExecutableHeader::new with segment count 0 (fixed up at serialization). -/
def Executable.new (arch : Architecture) (segments : List Segment) : Executable :=
  { header := ExecutableHeader.new arch 0, segments := segments }

/-- The object-file container (src/object_file/mod.rs lines 12-16). -/
structure ObjectFile where
  architecture : Architecture
  sections : List Section
deriving DecidableEq, Repr

/-- TryFrom of ObjectFile for Executable (src/lib.rs lines 17-33): wrap
each section, place, and convert the placement to segments. -/
def Executable.tryFrom (o : ObjectFile) : Option (Except LinkerError Executable) :=
  let placed := Placement.place { sections := o.sections.map PlacedSection.new,
                                  architecture := o.architecture }
  match placed.asSegments with
  | none => none
  | some (.error e) => some (.error e)
  | some (.ok segs) => some (.ok (Executable.new o.architecture segs))

/-- Little-endian encoding of the low k bytes of a natural number (the
to_le_bytes calls of the source, with the as-u32 / as-u64 truncation
happening through the byte count k). -/
def toLE : Nat → Nat → List Nat
  | 0, _ => []
  | k + 1, n => n % 256 :: toLE k (n / 256)

/-- Little-endian decoding (from_le_bytes). -/
def fromLE : List Nat → Nat
  | [] => 0
  | b :: bs => b + 256 * fromLE bs

/-- The byte window data[off .. off+k) used by the fixed-offset reads of the
decoders (always guarded by a length check in the source). -/
def slice (data : List Nat) (off k : Nat) : List Nat :=
  (data.drop off).take k

/-- Section headers of src/object_file/sections/header.rs lines 50-55. -/
inductive SectionHeader where
  | text (bit_length : Nat)
  | symbolTable (entry_count names_length : Nat)
  | relocationTable (entry_count names_length : Nat)
deriving DecidableEq, Repr

/-- SectionHeader::serialize (src/object_file/sections/header.rs lines
57-82): 16-byte frames with type tags 0 / 255 / 254. -/
def SectionHeader.serialize : SectionHeader → List Nat
  | .text bl => 0 :: List.replicate 7 0 ++ toLE 8 bl
  | .symbolTable ec nl => 255 :: List.replicate 3 0 ++ toLE 4 ec ++ toLE 4 nl ++ List.replicate 4 0
  | .relocationTable ec nl =>
      254 :: List.replicate 3 0 ++ toLE 4 ec ++ toLE 4 nl ++ List.replicate 4 0

/-- SectionHeader::deserialize (src/object_file/sections/header.rs lines
84-114). -/
def SectionHeader.deserialize (data : List Nat) : Except SerializationError (Nat × SectionHeader) :=
  if data.length < 16 then .error .dataTooShort
  else
    match data.getD 0 0 with
    | 0 => .ok (16, .text (fromLE (slice data 8 8)))
    | 255 => .ok (16, .symbolTable (fromLE (slice data 4 4)) (fromLE (slice data 8 4)))
    | 254 => .ok (16, .relocationTable (fromLE (slice data 4 4)) (fromLE (slice data 8 4)))
    | v => .error (.invalidSectionType v)

/-- SectionHeader::section_size (src/object_file/sections/header.rs lines
117-129): on-disk byte length of the payload the header describes. -/
def SectionHeader.sectionSize : SectionHeader → Nat
  | .text bl => (bl + 7) / 8
  | .symbolTable ec nl => 12 * ec + nl
  | .relocationTable ec nl => 16 * ec + nl

def SectionHeader.isSymbolTable : SectionHeader → Bool
  | .symbolTable _ _ => true
  | _ => false

def SectionHeader.isRelocationTable : SectionHeader → Bool
  | .relocationTable _ _ => true
  | _ => false

/-- Symbol table entry (src/symbols.rs lines 14-19). -/
structure SymbolEntry where
  section_id : Nat
  offset : Nat
  name_offset : Nat
deriving DecidableEq, Repr

/-- In-memory symbol side table (src/symbols.rs lines 21-25). -/
structure SymbolTable where
  entries : List SymbolEntry
  names : List Nat
deriving DecidableEq, Repr

def SymbolTable.new : SymbolTable :=
  { entries := [], names := [] }

/-- SymbolTable::add_symbol (src/symbols.rs lines 35-45): the name offset is
the blob length before the NUL-terminated name is appended. -/
def SymbolTable.addSymbol (t : SymbolTable) (sid : Nat) (s : Symbol) : SymbolTable :=
  { entries := t.entries ++ [{ section_id := sid, offset := s.address,
                               name_offset := t.names.length }],
    names := t.names ++ s.name ++ [0] }

/-- SymbolTable::serialize_as_section (src/symbols.rs lines 47-66): 12-byte
little-endian entries followed by the name blob. -/
def SymbolTable.serializeAsSection (t : SymbolTable) : SectionHeader × List Nat :=
  (.symbolTable t.entries.length t.names.length,
   (t.entries.map fun e => toLE 4 e.section_id ++ toLE 4 e.offset ++ toLE 4 e.name_offset).flatten
     ++ t.names)

/-- Entry loop of SymbolTable::deserialize_section (src/symbols.rs lines
112-150), with the per-entry length and name-offset checks. -/
def parseSymbolEntries (data : List Nat) (nl : Nat) :
    Nat → Nat → Except SerializationError (Nat × List SymbolEntry)
  | off, 0 => .ok (off, [])
  | off, k + 1 =>
      if data.length < off + 12 then .error .dataTooShort
      else
        let sid := fromLE (slice data off 4)
        let addr := fromLE (slice data (off + 4) 4)
        let noff := fromLE (slice data (off + 8) 4)
        if nl ≤ noff then .error .invalidData
        else
          match parseSymbolEntries data nl (off + 12) k with
          | .error e => .error e
          | .ok (off2, es) =>
              .ok (off2, { section_id := sid, offset := addr, name_offset := noff } :: es)

/-- SymbolTable::deserialize_section (src/symbols.rs lines 99-169).  Note the
name blob is only required to contain a NUL when it is non-empty. -/
def SymbolTable.deserializeSection (ec nl : Nat) (data : List Nat) :
    Except SerializationError (Nat × SymbolTable) :=
  if data.length < ec * 12 + nl then .error .dataTooShort
  else
    match parseSymbolEntries data nl 0 ec with
    | .error e => .error e
    | .ok (off, entries) =>
        if data.length < off + nl then .error .dataTooShort
        else
          let names := slice data off nl
          if 0 < names.length then
            if names.any (fun b => b == 0) then .ok (off + nl, { entries := entries, names := names })
            else .error .invalidData
          else .ok (off + nl, { entries := entries, names := names })

/-- Name reconstruction of SymbolTable::get_symbols (src/symbols.rs lines
243-248): bytes from the offset up to the first NUL or the end of the blob. -/
def readName (names : List Nat) (off : Nat) : List Nat :=
  (names.drop off).takeWhile fun b => b != 0

/-- SymbolTable::get_symbols (src/symbols.rs lines 238-255). -/
def SymbolTable.getSymbols (t : SymbolTable) (sid : Nat) : List Symbol :=
  (t.entries.filter fun e => e.section_id == sid).map fun e =>
    { name := readName t.names e.name_offset, address := e.offset }

/-- Relocation table entry (src/object_file/relocations.rs lines 12-18). -/
structure RelocationEntry where
  section_id : Nat
  symbol_offset : Nat
  address : Nat
  relative : Bool
deriving DecidableEq, Repr

/-- In-memory relocation side table (src/object_file/relocations.rs lines
20-24). -/
structure RelocationTable where
  entries : List RelocationEntry
  names : List Nat
deriving DecidableEq, Repr

def RelocationTable.new : RelocationTable :=
  { entries := [], names := [] }

/-- RelocationTable::add_relocation (src/object_file/relocations.rs lines
34-45). -/
def RelocationTable.addRelocation (t : RelocationTable) (sid : Nat) (r : Relocation) :
    RelocationTable :=
  { entries := t.entries ++ [{ section_id := sid, symbol_offset := t.names.length,
                               address := r.address, relative := r.relative }],
    names := t.names ++ r.symbol ++ [0] }

/-- RelocationTable::serialize (src/object_file/relocations.rs lines 47-70):
16-byte entries (three u32 fields, a relative byte and three padding bytes)
followed by the name blob. -/
def RelocationTable.serialize (t : RelocationTable) : SectionHeader × List Nat :=
  (.relocationTable t.entries.length t.names.length,
   (t.entries.map fun e => toLE 4 e.section_id ++ toLE 4 e.symbol_offset ++ toLE 4 e.address
       ++ [if e.relative then 1 else 0, 0, 0, 0]).flatten
     ++ t.names)

/-- Entry loop of RelocationTable::deserialize (src/object_file/relocations.rs
lines 85-127). -/
def parseRelocationEntries (data : List Nat) (nl : Nat) :
    Nat → Nat → Except SerializationError (Nat × List RelocationEntry)
  | off, 0 => .ok (off, [])
  | off, k + 1 =>
      if data.length < off + 16 then .error .dataTooShort
      else
        let sid := fromLE (slice data off 4)
        let soff := fromLE (slice data (off + 4) 4)
        let addr := fromLE (slice data (off + 8) 4)
        let rel := data.getD (off + 12) 0 != 0
        if nl ≤ soff then .error .invalidData
        else
          match parseRelocationEntries data nl (off + 16) k with
          | .error e => .error e
          | .ok (off2, es) =>
              .ok (off2, { section_id := sid, symbol_offset := soff, address := addr,
                           relative := rel } :: es)

/-- RelocationTable::deserialize (src/object_file/relocations.rs lines
72-144).  Unlike the symbol table, the NUL check on the name blob is not
guarded by non-emptiness: an empty blob is rejected with InvalidData. -/
def RelocationTable.deserialize (ec nl : Nat) (data : List Nat) :
    Except SerializationError (Nat × RelocationTable) :=
  if data.length < ec * 16 + nl then .error .dataTooShort
  else
    match parseRelocationEntries data nl 0 ec with
    | .error e => .error e
    | .ok (off, entries) =>
        if data.length < off + nl then .error .dataTooShort
        else
          let names := slice data off nl
          if names.any (fun b => b == 0) then .ok (off + nl, { entries := entries, names := names })
          else .error .invalidData

/-- RelocationTable::get_relocations (src/object_file/relocations.rs lines
146-164). -/
def RelocationTable.getRelocations (t : RelocationTable) (sid : Nat) : List Relocation :=
  (t.entries.filter fun e => e.section_id == sid).map fun e =>
    { symbol := readName t.names e.symbol_offset, address := e.address, relative := e.relative }

/-- Bit-buffer to bytes, least-significant bit of each byte first
(TextSection::serialize, src/object_file/sections/text.rs lines 30-42). -/
def bitsToBytes (bits : List Bool) : List Nat :=
  (List.range ((bits.length + 7) / 8)).map fun i =>
    (List.range 8).foldl
      (fun byte j => if i * 8 + j < bits.length ∧ bitAt bits (i * 8 + j) = true
                     then byte + 2 ^ j else byte) 0

/-- Bytes back to a bit buffer of the given length (the bit loop of
TextSection::deserialize, src/object_file/sections/text.rs lines 56-60). -/
def bytesToBits (data : List Nat) (bitLength : Nat) : List Bool :=
  (List.range bitLength).map fun i => Nat.testBit (data.getD (i / 8) 0) (i % 8)

/-- TextSection::deserialize.  Modelled from the spec for the attachment of
the side tables: the four-argument variant called by Section::deserialize in
src/object_file/sections/common.rs (its body in text.rs predates the side
tables and still has the three-argument signature); per spec section 4.6 the
decoder attaches the symbols and relocations the section owns by index.  The
length check and the bit loop are those of text.rs lines 44-65. -/
def TextSection.deserialize (bitLength : Nat) (data : List Nat)
    (symbols : List Symbol) (relocations : List Relocation) :
    Except SerializationError (Nat × TextSection) :=
  if data.length < (bitLength + 7) / 8 then .error .dataTooShort
  else .ok ((bitLength + 7) / 8,
    { data := bytesToBits data bitLength, symbols := symbols, relocations := relocations })

/-- Section::serialize (src/object_file/sections/common.rs lines 17-27). -/
def Section.serialize : Section → SectionHeader × List Nat
  | .text t => (.text t.data.length, bitsToBytes t.data)

/-- Section::deserialize (src/object_file/sections/common.rs lines 29-42). -/
def Section.deserialize (header : SectionHeader) (data : List Nat)
    (symbols : List Symbol) (relocations : List Relocation) :
    Except SerializationError (Nat × Section) :=
  match header with
  | .text bl =>
      match TextSection.deserialize bl data symbols relocations with
      | .error e => .error e
      | .ok (sz, t) => .ok (sz, .text t)
  | _ => .error (.invalidSectionType 0)

/-- Object-file header (src/object_file/header.rs). -/
structure ObjectHeader where
  architecture : Architecture
  section_count : Nat
deriving DecidableEq, Repr

def ObjectHeader.serialize (h : ObjectHeader) : List Nat :=
  h.architecture.toByte :: toLE 8 h.section_count

def ObjectHeader.deserialize (data : List Nat) : Except SerializationError (Nat × ObjectHeader) :=
  if data.length < 9 then .error .dataTooShort
  else
    match Architecture.ofByte (data.getD 0 0) with
    | .error e => .error e
    | .ok arch => .ok (9, { architecture := arch, section_count := fromLE (slice data 1 8) })

/-- The gathering loop of ObjectFile::serialize (src/object_file/mod.rs lines
26-33): per section, its symbols and relocations are appended to the side
tables under the section index. -/
def gatherTables : List Section → Nat → SymbolTable → RelocationTable →
    SymbolTable × RelocationTable
  | [], _, st, rt => (st, rt)
  | s :: rest, i, st, rt =>
      gatherTables rest (i + 1)
        (s.symbols.foldl (fun t sym => t.addSymbol i sym) st)
        (s.relocations.foldl (fun t r => t.addRelocation i r) rt)

/-- ObjectFile::serialize (src/object_file/mod.rs lines 19-68): header with
section count N+2, then the N text headers, the symbol-table header and the
relocation-table header, then all payloads in the same order. -/
def ObjectFile.serialize (o : ObjectFile) : List Nat :=
  let tables := gatherTables o.sections 0 SymbolTable.new RelocationTable.new
  let pairs := o.sections.map Section.serialize
  let symPair := tables.1.serializeAsSection
  let relPair := tables.2.serialize
  let headers := pairs.map Prod.fst ++ [symPair.1, relPair.1]
  ObjectHeader.serialize { architecture := o.architecture, section_count := o.sections.length + 2 }
    ++ (headers.map SectionHeader.serialize).flatten
    ++ ((pairs.map Prod.snd).flatten ++ symPair.2 ++ relPair.2)

/-- Header loop of ObjectFile::deserialize (src/object_file/mod.rs lines
80-89), with the 16-byte length check before each header. -/
def readHeaders (data : List Nat) : Nat → Nat → Except SerializationError (Nat × List SectionHeader)
  | off, 0 => .ok (off, [])
  | off, k + 1 =>
      if data.length < off + 16 then .error .dataTooShort
      else
        match SectionHeader.deserialize (data.drop off) with
        | .error e => .error e
        | .ok (sz, h) =>
            match readHeaders data (off + sz) k with
            | .error e => .error e
            | .ok (off2, hs) => .ok (off2, h :: hs)

/-- Text-section loop of ObjectFile::deserialize (src/object_file/mod.rs
lines 141-161).  The slice data[off..] panics when off exceeds the length:
modelled as none. -/
def parseSections (data : List Nat) (st : SymbolTable) (rt : RelocationTable) :
    List SectionHeader → Nat → Nat → Option (Except SerializationError (Nat × List Section))
  | [], _, off => some (.ok (off, []))
  | h :: hs, idx, off =>
      match h with
      | .text _ =>
          if data.length < off then none
          else
            match Section.deserialize h (data.drop off) (st.getSymbols idx) (rt.getRelocations idx) with
            | .error e => some (.error e)
            | .ok (sz, sec) =>
                match parseSections data st rt hs (idx + 1) (off + sz) with
                | none => none
                | some (.error e) => some (.error e)
                | some (.ok (off2, secs)) => some (.ok (off2, sec :: secs))
      | _ => some (.error .invalidData)

/-- ObjectFile::deserialize (src/object_file/mod.rs lines 70-170).  The
slices data[symbol_offset..] and data[relocation_offset..] are taken without
first checking the offset against the length: when the computed offset
exceeds the input length the Rust code panics, modelled as none.  The
unreachable! arms of the source are likewise none. -/
def ObjectFile.deserialize (data : List Nat) :
    Option (Except SerializationError (Nat × ObjectFile)) :=
  if data.length < 9 then some (.error .dataTooShort)
  else
    match ObjectHeader.deserialize data with
    | .error e => some (.error e)
    | .ok (hsz, header) =>
        match readHeaders data hsz header.section_count with
        | .error e => some (.error e)
        | .ok (off, headers) =>
            let n := headers.length
            if n < 2 then some (.error .invalidData)
            else if !(headers.getD (n - 2) (.text 0)).isSymbolTable then some (.error .invalidData)
            else if !(headers.getD (n - 1) (.text 0)).isRelocationTable then
              some (.error .invalidData)
            else if (headers.take (n - 2)).any
                (fun h => h.isSymbolTable || h.isRelocationTable) then
              some (.error .invalidData)
            else
              let symbolOffset := off + ((headers.take (n - 2)).map SectionHeader.sectionSize).sum
              if data.length < symbolOffset then none
              else
                match headers.getD (n - 2) (.text 0) with
                | .symbolTable ec nl =>
                    match SymbolTable.deserializeSection ec nl (data.drop symbolOffset) with
                    | .error e => some (.error e)
                    | .ok (_, st) =>
                        let relocationOffset :=
                          symbolOffset + (headers.getD (n - 2) (.text 0)).sectionSize
                        if data.length < relocationOffset then none
                        else
                          match headers.getD (n - 1) (.text 0) with
                          | .relocationTable ec2 nl2 =>
                              match RelocationTable.deserialize ec2 nl2
                                  (data.drop relocationOffset) with
                              | .error e => some (.error e)
                              | .ok (_, rt) =>
                                  match parseSections data st rt (headers.take (n - 2)) 0 off with
                                  | none => none
                                  | some (.error e) => some (.error e)
                                  | some (.ok (_, sections)) =>
                                      some (.ok
                                        (relocationOffset
                                            + (headers.getD (n - 1) (.text 0)).sectionSize,
                                         { architecture := header.architecture,
                                           sections := sections }))
                          | _ => none
                | _ => none

/-! Concrete inputs used by the counterexamples, evaluations and witnesses.
Names are ASCII byte strings: [76] is "L", [83] is "S", [65] is "A",
[66] is "B". -/

/-- An 18-bit section with no symbols, first in placement order. -/
def exA : Section := .text { data := List.replicate 18 false, symbols := [], relocations := [] }

/-- An empty section owning the symbol S at bit address 0, second in
placement order. -/
def exB : Section := .text { data := [], symbols := [{ name := [83], address := 0 }],
                             relocations := [] }

/-- The two sections above, placed for the Stack architecture: section two
receives text-byte offset ceil(18/6) = 3. -/
def exPlacement : Placement :=
  Placement.place { sections := [PlacedSection.new exA, PlacedSection.new exB],
                    architecture := .stack }

/-- Eighteen zero bits, the symbol L at bit 12, and the same absolute relocation
at bit 0 recorded twice. -/
def exDup : TextSection :=
  { data := List.replicate 18 false,
    symbols := [{ name := [76], address := 12 }],
    relocations := [{ symbol := [76], address := 0, relative := false },
                    { symbol := [76], address := 0, relative := false }] }

def exDupPlacement : Placement :=
  { sections := [{ «section» := .text exDup, offset := 0 }], architecture := .stack }

/-- The duplicated relocation of exDup. -/
def exDupReloc : Relocation := { symbol := [76], address := 0, relative := false }

/-- An 8-bit section whose first relocation patches in range at bit 0 (a
straddling site: the buffer ends inside the 16-bit window) and whose second
relocation resolves to a displacement of 100000 words, far out of range. -/
def exStraddle : TextSection :=
  { data := List.replicate 8 false,
    symbols := [{ name := [65], address := 0 }, { name := [66], address := 600000 }],
    relocations := [{ symbol := [65], address := 0, relative := false },
                    { symbol := [66], address := 0, relative := false }] }

def exStraddlePlacement : Placement :=
  { sections := [{ «section» := .text exStraddle, offset := 0 }], architecture := .stack }

/-- The out-of-range relocation of exStraddle. -/
def exStraddleReloc : Relocation := { symbol := [66], address := 0, relative := false }

/-- A well-formed object file with no relocations at all: one 6-bit text
section owning the symbol L at bit 0.  Architecture Stack, the name is
non-empty and NUL-free, the address fits in 32 bits. -/
def exNoReloc : ObjectFile :=
  { architecture := .stack,
    sections := [.text { data := List.replicate 6 false,
                         symbols := [{ name := [76], address := 0 }],
                         relocations := [] }] }

/-- The end-to-end scenario of the spec: architecture Stack, one text
section of 18 zero bits, symbol L at bit 12, one absolute relocation at
bit 0. -/
def exLink : ObjectFile :=
  { architecture := .stack,
    sections := [.text { data := List.replicate 18 false,
                         symbols := [{ name := [76], address := 12 }],
                         relocations := [{ symbol := [76], address := 0, relative := false }] }] }

/-- The 18-bit buffer after the relocation patch of exLink: the field value
2 = 0x0002 sits MSB-first in bits 0..15, so only bit 14 is set. -/
def exLinkBits : List Bool :=
  List.replicate 14 false ++ true :: List.replicate 3 false

/-- The segment the exLink section becomes: start 0, size 3 text-bytes,
18 bits on disk, read/execute flags. -/
def exLinkSegment : Segment :=
  { address_space_start := 0, address_space_size := 3, disk_bit_count := 18,
    flags := { executable := true, writable := false, readable := true, special := false },
    data := exLinkBits,
    symbols := [{ name := [76], address := 12 }] }

/-- The exLink text section on its own: 18 zero bits, symbol L at bit 12,
one absolute relocation at bit 0. -/
def exOneText : TextSection :=
  { data := List.replicate 18 false,
    symbols := [{ name := [76], address := 12 }],
    relocations := [{ symbol := [76], address := 0, relative := false }] }

/-- The relocation of exOneText. -/
def exOneReloc : Relocation := { symbol := [76], address := 0, relative := false }

def exOnePlacement : Placement :=
  { sections := [{ «section» := .text exOneText, offset := 0 }], architecture := .stack }

/-- An 18-bit section whose only relocation resolves to bit 600000, i.e. a
word offset of 100000, out of range. -/
def exFarText : TextSection :=
  { data := List.replicate 18 false,
    symbols := [{ name := [66], address := 600000 }],
    relocations := [{ symbol := [66], address := 0, relative := false }] }

def exFarPlacement : Placement :=
  { sections := [{ «section» := .text exFarText, offset := 0 }], architecture := .stack }

/-- A serialized prefix claiming three sections (one text section of 8 bits,
then the two tables) but carrying no payload bytes at all: 57 bytes in
total, while the symbol-table payload would start at offset 58. -/
def exTruncated : List Nat :=
  ObjectHeader.serialize { architecture := .stack, section_count := 3 }
    ++ SectionHeader.serialize (.text 8)
    ++ SectionHeader.serialize (.symbolTable 0 0)
    ++ SectionHeader.serialize (.relocationTable 0 0)

/-- An object file with no sections at all; linking it trivially succeeds. -/
def exEmpty : ObjectFile := { architecture := .stack, sections := [] }

/-- The executable that linking exEmpty produces. -/
def exEmptyExe : Executable :=
  { header := { architecture := .stack, segment_count := 0, entry_point := 0 }, segments := [] }

/-! ### Claim C1, counterexample
The claim predicts that the resolved address of a symbol is its section-relative
address plus the placement offset multiplied by the text-byte width.  In the
source the offset (stored in text-bytes) is added to the bit address without
any multiplication. -/

/-- C1 (counterexample): in exPlacement the symbol S lives at section-relative
bit 0 of the second section, whose placement offset is 3 text-bytes; the
claim predicts 0 + 3 * 6 = 18 bits, but find_symbol returns 3. -/
theorem find_symbol_offset_not_scaled_cex :
    Placement.findSymbol exPlacement [83] = some 3 ∧
    (exPlacement.sections.getD 1 (PlacedSection.new exA)).offset = 3 ∧
    textByteWidth exPlacement.architecture = 6 ∧ (3 : Nat) ≠ 0 + 3 * 6 := by
  refine ⟨by decide, by decide, by decide, by decide⟩

/-! ### Claim C2, counterexample
With the same relocation recorded twice at one site, each patch adds the
word offset again, so the final field is the pre-existing field plus twice
the offset: the per-relocation equation of the claim fails. -/

/-- C2 (counterexample): exDup records the absolute relocation at bit 0
twice; both resolve to word offset 2, the field of the converted segment at bit 0
is 4, while the claim predicts pre-existing plus offset = 2 for each
relocation of the section. -/
theorem to_segment_duplicate_site_cex :
    (Section.toSegment (.text exDup) exDupPlacement 0).map
        (fun r => r.map fun seg => index16 seg.data 0) = some (.ok 4) ∧
    Placement.findSymbol exDupPlacement [76] = some 12 ∧
    (index16 exDup.data 0
        + u16ofInt (relocWordOffset 12 exDupReloc (textByteWidth .stack))) % 65536 = 2 ∧
    (4 : Nat) ≠ 2 := by
  refine ⟨by decide, by decide, by decide, by decide⟩

/-! ### Claim C3, counterexample
A relocation whose 16-bit site straddles the end of the buffer makes the
patch loop panic (see C7) before a later out-of-range relocation is ever
examined, so to_segment does not fail with RelocationOutOfRange even though
a relocation with word offset beyond 2^16 exists. -/

/-- C3 (counterexample): in exStraddle every relocation resolves, the second
second relocation has word offset 100000 > 65536, yet to_segment panics on
the straddling write of the first relocation instead of failing with
RelocationOutOfRange. -/
theorem to_segment_straddle_panic_cex :
    Section.toSegment (.text exStraddle) exStraddlePlacement 0 = none ∧
    Placement.findSymbol exStraddlePlacement [65] = some 0 ∧
    Placement.findSymbol exStraddlePlacement [66] = some 600000 ∧
    relocWordOffset 600000 exStraddleReloc (textByteWidth .stack) = 100000 ∧
    (65536 : Int) < 100000 := by
  refine ⟨by decide, by decide, by decide, by decide, by decide⟩

/-! ### Claim C4
Round-trip fails for a well-formed object file with no relocations:
RelocationTable::deserialize rejects the empty name blob with InvalidData
(src/object_file/relocations.rs lines 135-138), where the symbol-table
decoder guards the same check behind non-emptiness (src/symbols.rs lines
158-163). -/

/-- C4 (code bug, evaluation): exNoReloc is well formed (architecture Stack,
one text section, a non-empty NUL-free symbol name, 32-bit addresses, no
relocations), yet deserialize(serialize(exNoReloc)) is InvalidData instead
of reproducing the object file. -/
theorem roundtrip_fails_without_relocations :
    ObjectFile.deserialize (ObjectFile.serialize exNoReloc) = some (.error .invalidData) := by
  decide

/-! ### Claim C5 -/

/-- C5 (confirmed): linking exLink (architecture Stack, one text section of
18 zero bits, symbol L at bit 12, one absolute relocation at bit 0) succeeds
with a single read/execute text segment whose first 16 bits hold
12 / 6 = 2 = 0x0002. -/
theorem link_end_to_end_scenario :
    Executable.tryFrom exLink =
      some (.ok { header := { architecture := .stack, segment_count := 0, entry_point := 0 },
                  segments := [exLinkSegment] }) ∧
    index16 exLinkSegment.data 0 = 2 := by
  refine ⟨by decide, by decide⟩

/-! ### Claim C7
The write loop guards position idx + i but writes position idx + 15 - i, so
a write whose 16-bit window straddles the end of the buffer calls
BitVec::set out of bounds and panics; it is not total. -/

/-- C7 (code bug, evaluation): writing any value at offset 0 of an 8-bit
buffer passes the guard for i = 0 (0 < 8) and then calls set at position 15,
which is out of bounds: the source panics instead of silently dropping the
out-of-range bit positions. -/
theorem write16_straddling_panics :
    write16 (List.replicate 8 false) 0 65535 = none := by
  decide

/-! ### Claim C8
The Architecture enum has no Accumulator variant; byte 1 is rejected. -/

/-- C8 (counterexample): decoding architecture byte 1 does not succeed with
an Accumulator architecture as the claim states: it fails with
InvalidArchitecture(1). -/
theorem architecture_byte_one_rejected_cex :
    Architecture.ofByte 1 = .error (.invalidArchitecture 1) := by
  decide

/-- C8 (amended): decoding an architecture byte succeeds exactly for bytes
0 and 2, yielding Stack and Risc, and fails with InvalidArchitecture(b) for
every other byte b, including 1. -/
theorem architecture_ofByte_eq (b : Nat) :
    Architecture.ofByte b =
      if b = 0 then .ok .stack
      else if b = 2 then .ok .risc
      else .error (.invalidArchitecture b) := by
  match b with
  | 0 => rfl
  | 1 => rfl
  | 2 => rfl
  | n + 3 => simp [Architecture.ofByte]

/-! ### Claim C9
ObjectFile::deserialize computes the symbol-table payload offset from the
header-declared payload sizes and slices data[symbol_offset..] without
comparing the offset against the input length first; a header that promises
more payload than the input carries makes the slice panic. -/

/-- C9 (code bug, evaluation): exTruncated declares a text section of 8 bits
(one payload byte) but ends right after the 57 header bytes; the symbol
table payload offset is 58 > 57 and the slice panics instead of returning
DataTooShort. -/
theorem deserialize_truncated_input_panics :
    ObjectFile.deserialize exTruncated = none ∧ exTruncated.length = 57 := by
  refine ⟨by decide, by decide⟩

/-! ### Claim C10 -/

/-- C10 (confirmed): every executable produced by the TryFrom linking entry
point has entry point 0 in its header; no start-symbol lookup is performed
(ExecutableHeader::new leaves entry_point = 0). -/
theorem entry_point_always_zero (o : ObjectFile) (e : Executable)
    (h : Executable.tryFrom o = some (.ok e)) : e.header.entry_point = 0 := by
  unfold Executable.tryFrom at h
  simp only [] at h
  split at h
  · exact absurd h (by simp)
  · exact absurd h (by simp)
  · simp only [Option.some.injEq] at h
    cases h.symm
    rfl

/-- C10 (witness): linking the empty object file succeeds and the theorem
applies, giving entry point 0. -/
theorem entry_point_always_zero_witness :
    Executable.tryFrom exEmpty = some (.ok exEmptyExe) ∧ exEmptyExe.header.entry_point = 0 :=
  ⟨by decide, entry_point_always_zero exEmpty exEmptyExe (by decide)⟩

/-! ### Bit-buffer lemmas (claim C6) -/

theorem bitAt_set_self (l : List Bool) (i : Nat) (b : Bool) (h : i < l.length) :
    bitAt (l.set i b) i = b := by
  induction l generalizing i with
  | nil => simp at h
  | cons x xs ih =>
    cases i with
    | zero => rfl
    | succ n => exact ih n (by simpa using h)

theorem bitAt_set_other (l : List Bool) (i j : Nat) (b : Bool) (h : i ≠ j) :
    bitAt (l.set i b) j = bitAt l j := by
  induction l generalizing i j with
  | nil => rfl
  | cons x xs ih =>
    cases i with
    | zero =>
      cases j with
      | zero => exact absurd rfl h
      | succ m => rfl
    | succ n =>
      cases j with
      | zero => rfl
      | succ m => exact ih n m fun hh => h (by rw [hh])

theorem bitAt_true_lt (l : List Bool) (j : Nat) (h : bitAt l j = true) : j < l.length := by
  induction l generalizing j with
  | nil => simp [bitAt, List.getD] at h
  | cons x xs ih =>
    cases j with
    | zero => simp
    | succ m => exact Nat.succ_lt_succ (ih m h)

theorem msbVal_congr (k : Nat) (f g : Nat → Bool) (h : ∀ i, i < k → f i = g i) :
    msbVal k f = msbVal k g := by
  induction k generalizing f g with
  | zero => rfl
  | succ n ih =>
    unfold msbVal
    rw [h 0 (by omega), ih _ _ fun i hi => h (i + 1) (by omega)]

theorem msbVal_lt (k : Nat) (c : Nat → Bool) : msbVal k c < 2 ^ k := by
  induction k generalizing c with
  | zero => simp [msbVal]
  | succ n ih =>
    have := ih fun j => c (j + 1)
    cases hc : c 0 <;> simp [msbVal, hc, pow_succ] <;> omega

theorem index16Go_msbVal (buf : List Bool) (idx : Nat) (k : Nat) :
    ∀ (s acc : Nat), index16Go buf idx (List.range' s k) acc
      = acc * 2 ^ k + msbVal k fun i => bitAt buf (idx + s + i) := by
  induction k with
  | zero => intro s acc; simp [index16Go, msbVal]
  | succ n ih =>
    intro s acc
    rw [List.range'_succ]
    have hguard : (if idx + s < buf.length ∧ bitAt buf (idx + s) = true then 1 else 0)
        = (if bitAt buf (idx + s) = true then 1 else 0) := by
      by_cases hb : bitAt buf (idx + s) = true
      · rw [if_pos ⟨bitAt_true_lt buf (idx + s) hb, hb⟩, if_pos hb]
      · rw [if_neg (fun hc => hb hc.2), if_neg hb]
    show index16Go buf idx (List.range' (s + 1) n) _ = _
    rw [ih (s + 1), hguard]
    have hshift : msbVal n (fun i => bitAt buf (idx + (s + 1) + i))
        = msbVal n (fun i => bitAt buf (idx + s + (i + 1))) :=
      msbVal_congr n _ _ fun i hi => by congr 1; omega
    rw [hshift]
    simp only [msbVal, Nat.add_zero]
    by_cases hb : bitAt buf (idx + s) = true
    · rw [if_pos hb, if_pos hb]; ring
    · rw [if_neg hb, if_neg hb]; ring

theorem index16_eq_msbVal (buf : List Bool) (idx : Nat) :
    index16 buf idx = msbVal 16 fun i => bitAt buf (idx + i) := by
  rw [index16, List.range_eq_range', index16Go_msbVal buf idx 16 0 0]
  rw [msbVal_congr 16 (fun i => bitAt buf (idx + 0 + i)) (fun i => bitAt buf (idx + i))
    fun i hi => rfl]
  omega

theorem index16_lt (buf : List Bool) (idx : Nat) : index16 buf idx < 65536 := by
  rw [index16_eq_msbVal]
  exact msbVal_lt 16 _

theorem index16_congr (b1 b2 : List Bool) (idx : Nat)
    (h : ∀ i, i < 16 → bitAt b1 (idx + i) = bitAt b2 (idx + i)) :
    index16 b1 idx = index16 b2 idx := by
  rw [index16_eq_msbVal, index16_eq_msbVal]
  exact msbVal_congr 16 _ _ h

theorem write16Go_inrange (idx : Nat) (k : Nat) :
    ∀ (s v : Nat) (b : List Bool), s + k ≤ 16 → idx + 16 ≤ b.length →
      ∃ b2, write16Go idx (List.range' s k) v b = some b2 ∧
        b2.length = b.length ∧
        (∀ i, s ≤ i → i < s + k → bitAt b2 (idx + 15 - i) = decide (v / 2 ^ (i - s) % 2 = 1)) ∧
        (∀ j, (∀ i, s ≤ i → i < s + k → j ≠ idx + 15 - i) → bitAt b2 j = bitAt b j) := by
  induction k with
  | zero =>
    intro s v b _ _
    refine ⟨b, by simp [write16Go], rfl, ?_, fun j _ => rfl⟩
    intro i h1 h2
    omega
  | succ n ih =>
    intro s v b hsk hlen
    have hg : idx + s < b.length := by omega
    have hpos : idx + 15 - s < b.length := by omega
    rw [List.range'_succ]
    have hstep : write16Go idx (s :: List.range' (s + 1) n) v b
        = write16Go idx (List.range' (s + 1) n) (v / 2)
            (b.set (idx + 15 - s) (decide (v % 2 = 1))) := by
      conv_lhs => rw [write16Go]
      rw [if_pos hg]
      simp only [setBit]
      rw [if_pos hpos]
    obtain ⟨b2, hw, hl, hbits, hunch⟩ :=
      ih (s + 1) (v / 2) (b.set (idx + 15 - s) (decide (v % 2 = 1))) (by omega) (by
        rw [List.length_set]; exact hlen)
    refine ⟨b2, by rw [hstep]; exact hw, by rw [hl, List.length_set], ?_, ?_⟩
    · intro i h1 h2
      by_cases hi : i = s
      · subst hi
        have hsame : bitAt b2 (idx + 15 - i) = bitAt (b.set (idx + 15 - i) (decide (v % 2 = 1)))
            (idx + 15 - i) := hunch (idx + 15 - i) fun i2 hi1 hi2 => by omega
        rw [hsame, bitAt_set_self _ _ _ hpos]
        congr 1
        rw [Nat.sub_self, pow_zero, Nat.div_one]
      · have hb := hbits i (by omega) (by omega)
        have hexp : 2 * 2 ^ (i - (s + 1)) = 2 ^ (i - s) := by
          have he : i - s = (i - (s + 1)) + 1 := by omega
          rw [he, pow_succ']
        rw [hb]
        congr 1
        rw [Nat.div_div_eq_div_mul, hexp]
    · intro j hj
      have hj0 : idx + 15 - s ≠ j := fun hh => hj s (le_refl s) (by omega) hh.symm
      rw [hunch j fun i2 h1 h2 => hj i2 (by omega) (by omega), bitAt_set_other _ _ _ _ hj0]

theorem write16_inrange (b : List Bool) (idx v : Nat) (h : idx + 16 ≤ b.length) :
    ∃ b2, write16 b idx v = some b2 ∧ b2.length = b.length ∧
      (∀ j, j < 16 → bitAt b2 (idx + j) = decide (v / 2 ^ (15 - j) % 2 = 1)) ∧
      (∀ j, j < idx ∨ idx + 16 ≤ j → bitAt b2 j = bitAt b j) := by
  obtain ⟨b2, hw, hl, hbits, hunch⟩ := write16Go_inrange idx 16 0 v b (by omega) h
  refine ⟨b2, by rw [write16, List.range_eq_range']; exact hw, hl, ?_, ?_⟩
  · intro j hj
    have hb := hbits (15 - j) (by omega) (by omega)
    have harg : idx + 15 - (15 - j) = idx + j := by omega
    have hsub : 15 - j - 0 = 15 - j := by omega
    rw [harg, hsub] at hb
    exact hb
  · intro j hj
    exact hunch j fun i h1 h2 => by omega

theorem msbVal_div_mod (k : Nat) : ∀ v : Nat,
    msbVal k (fun i => decide (v / 2 ^ (k - 1 - i) % 2 = 1)) = v % 2 ^ k := by
  induction k with
  | zero => intro v; simp [msbVal, Nat.mod_one]
  | succ n ih =>
    intro v
    simp only [msbVal]
    have hc : msbVal n (fun j => decide (v / 2 ^ (n + 1 - 1 - (j + 1)) % 2 = 1))
        = msbVal n (fun j => decide (v / 2 ^ (n - 1 - j) % 2 = 1)) :=
      msbVal_congr n _ _ fun i hi => by
        rw [show n + 1 - 1 - (i + 1) = n - 1 - i from by omega]
    rw [hc, ih v]
    have hm : v % (2 ^ n * 2) = v % 2 ^ n + 2 ^ n * (v / 2 ^ n % 2) := Nat.mod_mul
    have h2 : v / 2 ^ n % 2 = 0 ∨ v / 2 ^ n % 2 = 1 := Nat.mod_two_eq_zero_or_one _
    have hpow : v % 2 ^ (n + 1) = v % 2 ^ n + 2 ^ n * (v / 2 ^ n % 2) := by
      rw [pow_succ]; exact hm
    simp only [Nat.sub_zero, Nat.add_sub_cancel]
    rw [hpow]
    rcases h2 with h2 | h2
    · simp [h2]
    · simp [h2]
      omega

/-- Reading back an in-range 16-bit write returns the written value (below
2^16); shared by the bit-buffer claim and the relocation-patch claim. -/
theorem index16_after_write (b : List Bool) (idx v : Nat) (hlen : idx + 16 ≤ b.length)
    (hv : v < 65536) (b2 : List Bool) (hw : write16 b idx v = some b2) :
    index16 b2 idx = v := by
  obtain ⟨b3, hw2, hl, hbits, hunch⟩ := write16_inrange b idx v hlen
  rw [hw] at hw2
  injection hw2 with he
  subst he
  rw [index16_eq_msbVal]
  rw [msbVal_congr 16 _ _ fun i hi => hbits i hi]
  have hdm := msbVal_div_mod 16 v
  rw [msbVal_congr 16 (fun i => decide (v / 2 ^ (15 - i) % 2 = 1))
    (fun i => decide (v / 2 ^ (16 - 1 - i) % 2 = 1)) fun i hi => rfl]
  rw [hdm]
  have h216 : (2 : Nat) ^ 16 = 65536 := by norm_num
  rw [h216]
  exact Nat.mod_eq_of_lt hv

/-! ### Claim C6 -/

/-- C6 (confirmed): for every bit buffer, value below 2^16 and offset a with
a + 16 within the buffer, write16 succeeds without changing the length,
read16 immediately afterwards returns the value, the 16 written positions
hold the value MSB-first (bit a + j carries bit 15 - j of the value) and
every position outside a..a+15 is unchanged. -/
theorem read16_after_write16 (buf : List Bool) (a v : Nat)
    (hlen : a + 16 ≤ buf.length) (hv : v < 65536) :
    ∃ buf2, write16 buf a v = some buf2 ∧ buf2.length = buf.length ∧
      index16 buf2 a = v ∧
      (∀ j, j < 16 → bitAt buf2 (a + j) = decide (v / 2 ^ (15 - j) % 2 = 1)) ∧
      (∀ j, j < a ∨ a + 16 ≤ j → bitAt buf2 j = bitAt buf j) := by
  obtain ⟨b2, hw, hl, hbits, hunch⟩ := write16_inrange buf a v hlen
  exact ⟨b2, hw, hl, index16_after_write buf a v hlen hv b2 hw, hbits, hunch⟩

/-- C6 (witness): the theorem applied to a zeroed 16-bit buffer at offset 0
with value 0x8001 = 32769; additionally the write is evaluated, showing that
exactly the bits at positions 0 and 15 are set. -/
theorem read16_after_write16_witness :
    (∃ buf2, write16 (List.replicate 16 false) 0 32769 = some buf2 ∧
        buf2.length = (List.replicate 16 false : List Bool).length ∧
        index16 buf2 0 = 32769 ∧
        (∀ j, j < 16 → bitAt buf2 (0 + j) = decide (32769 / 2 ^ (15 - j) % 2 = 1)) ∧
        (∀ j, j < 0 ∨ 0 + 16 ≤ j → bitAt buf2 j = bitAt (List.replicate 16 false) j)) ∧
    write16 (List.replicate 16 false) 0 32769
      = some (true :: (List.replicate 14 false ++ [true])) :=
  ⟨read16_after_write16 (List.replicate 16 false) 0 32769 (by decide) (by decide), by decide⟩

/-! ### Relocation-patch lemmas (claims C2 and C3) -/

/-- A write entirely past the end of the buffer is a no-op: every loop guard
idx + i < length fails. -/
theorem write16Go_noop (idx : Nat) (b : List Bool) (h : b.length ≤ idx) :
    ∀ (is : List Nat) (v : Nat), write16Go idx is v b = some b := by
  intro is
  induction is with
  | nil => intro v; rfl
  | cons i rest ih =>
    intro v
    unfold write16Go
    rw [if_neg (by omega)]
    exact ih v

theorem write16_noop (b : List Bool) (idx v : Nat) (h : b.length ≤ idx) :
    write16 b idx v = some b :=
  write16Go_noop idx b h (List.range 16) v

/-- Inversion of one successful step of the relocation loop: the symbol
resolved, the word offset passed the bounds check, and the 16-bit
read-add-write went through. -/
theorem relocFold_cons_ok (p : Placement) (w : Nat) (r : Relocation) (rs : List Relocation)
    (b b2 : List Bool) (h : relocFold p w (r :: rs) b = some (.ok b2)) :
    ∃ S b1, p.findSymbol r.symbol = some S ∧
      ¬(65536 < relocWordOffset S r w ∨ relocWordOffset S r w < -65536) ∧
      write16 b r.address ((index16 b r.address + u16ofInt (relocWordOffset S r w)) % 65536)
        = some b1 ∧
      relocFold p w rs b1 = some (.ok b2) := by
  cases hfs : p.findSymbol r.symbol with
  | none => simp [relocFold, relocStep, hfs] at h
  | some S =>
    by_cases hoor : 65536 < relocWordOffset S r w ∨ relocWordOffset S r w < -65536
    · simp [relocFold, relocStep, hfs, if_pos hoor] at h
    · cases hw : write16 b r.address
          ((index16 b r.address + u16ofInt (relocWordOffset S r w)) % 65536) with
      | none => simp [relocFold, relocStep, hfs, if_neg hoor, hw] at h
      | some b1 =>
        refine ⟨S, b1, rfl, hoor, hw, ?_⟩
        simpa [relocFold, relocStep, hfs, if_neg hoor, hw] using h

/-- The core of the patch semantics: when the relocation loop succeeds on
sites that are in range and pairwise non-overlapping, the length is
unchanged, every bit outside the patched windows is unchanged, and each
16-bit field of each relocation in the result is the field of the input
buffer plus the word offset of that relocation, with wrapping u16
arithmetic. -/
theorem relocFold_fields (p : Placement) (w : Nat) :
    ∀ (rs : List Relocation) (b b2 : List Bool),
      relocFold p w rs b = some (.ok b2) →
      (∀ r ∈ rs, r.address + 16 ≤ b.length) →
      List.Pairwise (fun r1 r2 => r1.address + 16 ≤ r2.address ∨ r2.address + 16 ≤ r1.address) rs →
      b2.length = b.length ∧
      (∀ j, (∀ r ∈ rs, j < r.address ∨ r.address + 16 ≤ j) → bitAt b2 j = bitAt b j) ∧
      (∀ r ∈ rs, ∃ S, p.findSymbol r.symbol = some S ∧
          index16 b2 r.address
            = (index16 b r.address + u16ofInt (relocWordOffset S r w)) % 65536) := by
  intro rs
  induction rs with
  | nil =>
    intro b b2 h _ _
    have hb : b2 = b := by simpa [relocFold] using h.symm
    subst hb
    exact ⟨rfl, fun j _ => rfl, fun r hr => absurd hr (List.not_mem_nil r)⟩
  | cons r rs ih =>
    intro b b2 h hin hdisj
    obtain ⟨S, b1, hfs, hoor, hw, hrest⟩ := relocFold_cons_ok p w r rs b b2 h
    have hsite : r.address + 16 ≤ b.length := hin r (List.mem_cons_self r rs)
    have hvlt : (index16 b r.address + u16ofInt (relocWordOffset S r w)) % 65536 < 65536 :=
      Nat.mod_lt _ (by omega)
    obtain ⟨b1x, hwx, hl1, hbits1, hunch1⟩ := write16_inrange b r.address
      ((index16 b r.address + u16ofInt (relocWordOffset S r w)) % 65536) hsite
    rw [hw] at hwx
    injection hwx with he
    subst he
    have hdhead : ∀ r2 ∈ rs, r.address + 16 ≤ r2.address ∨ r2.address + 16 ≤ r.address :=
      fun r2 hr2 => List.rel_of_pairwise_cons hdisj hr2
    have hin1 : ∀ r2 ∈ rs, r2.address + 16 ≤ b1.length := by
      intro r2 hr2
      rw [hl1]
      exact hin r2 (List.mem_cons_of_mem r hr2)
    obtain ⟨hl2, hunch2, hfields2⟩ := ih b1 b2 hrest hin1 (List.Pairwise.of_cons hdisj)
    refine ⟨hl2.trans hl1, ?_, ?_⟩
    · intro j hj
      have h1 : bitAt b2 j = bitAt b1 j :=
        hunch2 j fun r2 hr2 => hj r2 (List.mem_cons_of_mem r hr2)
      have h2 : bitAt b1 j = bitAt b j :=
        hunch1 j (by rcases hj r (List.mem_cons_self r rs) with hc | hc <;> omega)
      rw [h1, h2]
    · intro r2 hr2
      rcases List.mem_cons.mp hr2 with hr2 | hr2
      · subst hr2
        refine ⟨S, hfs, ?_⟩
        have hsame : index16 b2 r2.address = index16 b1 r2.address := by
          apply index16_congr
          intro i hi
          apply hunch2
          intro r3 hr3
          rcases hdhead r3 hr3 with hc | hc <;> omega
        rw [hsame]
        exact index16_after_write b r2.address _ hsite hvlt b1 hw
      · obtain ⟨S2, hfs2, heq2⟩ := hfields2 r2 hr2
        refine ⟨S2, hfs2, ?_⟩
        have hsame : index16 b1 r2.address = index16 b r2.address := by
          apply index16_congr
          intro i hi
          apply hunch1
          rcases hdhead r2 hr2 with hc | hc <;> omega
        rw [heq2, hsame]

/-- Inversion of a successful Section::to_segment run: the relocation loop
succeeded and produced the bit buffer of the segment. -/
theorem toSegment_ok_inv (t : TextSection) (p : Placement) (off : Nat) (seg : Segment)
    (h : Section.toSegment (.text t) p off = some (.ok seg)) :
    relocFold p (textByteWidth p.architecture) t.relocations t.data = some (.ok seg.data) := by
  unfold Section.toSegment at h
  simp only [] at h
  cases hf : relocFold p (textByteWidth p.architecture) t.relocations t.data with
  | none => rw [hf] at h; exact absurd h (by simp)
  | some res =>
    cases res with
    | error e => rw [hf] at h; exact absurd h (by simp)
    | ok buf =>
      rw [hf] at h
      simp only [Option.some.injEq, Except.ok.injEq] at h
      rw [← h]

/-! ### Claim C2 -/

/-- C2 (amended, confirmed): for every successful Section::to_segment run
whose relocation sites lie fully inside the buffer and are pairwise at least
16 bits apart, the 16-bit field of each relocation at site_bits in the output
equals the pre-existing field of the input buffer plus the instruction-word
offset (displacement divided by the text-byte width, truncating toward
zero), added with wrapping 16-bit arithmetic. -/
theorem to_segment_patch_is_addition (p : Placement) (t : TextSection) (off : Nat) (seg : Segment)
    (hok : Section.toSegment (.text t) p off = some (.ok seg))
    (hin : ∀ r ∈ t.relocations, r.address + 16 ≤ t.data.length)
    (hdisj : List.Pairwise
      (fun r1 r2 => r1.address + 16 ≤ r2.address ∨ r2.address + 16 ≤ r1.address)
      t.relocations) :
    ∀ r ∈ t.relocations, ∃ S, p.findSymbol r.symbol = some S ∧
      index16 seg.data r.address
        = (index16 t.data r.address
            + u16ofInt (relocWordOffset S r (textByteWidth p.architecture))) % 65536 := by
  have hfold := toSegment_ok_inv t p off seg hok
  exact (relocFold_fields p (textByteWidth p.architecture) t.relocations t.data seg.data
    hfold hin hdisj).2.2

/-- C2 (witness): the amended theorem applied to the single-relocation
section of the end-to-end scenario: the field at bit 0 becomes 0 + 2. -/
theorem to_segment_patch_is_addition_witness :
    ∃ S, Placement.findSymbol exOnePlacement [76] = some S ∧
      index16 exLinkSegment.data 0
        = (index16 exOneText.data 0
            + u16ofInt (relocWordOffset S exOneReloc (textByteWidth .stack))) % 65536 :=
  to_segment_patch_is_addition exOnePlacement exOneText 0 exLinkSegment
    (by decide) (by decide) (by decide) exOneReloc (by decide)

/-- Section::to_segment returns a linker error exactly when the relocation
loop does. -/
theorem toSegment_error_iff (t : TextSection) (p : Placement) (off : Nat) (e : LinkerError) :
    Section.toSegment (.text t) p off = some (.error e) ↔
      relocFold p (textByteWidth p.architecture) t.relocations t.data = some (.error e) := by
  unfold Section.toSegment
  simp only []
  cases hf : relocFold p (textByteWidth p.architecture) t.relocations t.data with
  | none => simp
  | some res =>
    cases res with
    | error e2 => simp
    | ok buf => simp

/-- The out-of-range error of the relocation loop, characterised: under
resolvable symbols and non-straddling sites, the loop errors with
RelocationOutOfRange exactly when the word offset of some relocation exceeds
2^16 in absolute value. -/
theorem relocFold_oor (p : Placement) (w : Nat) :
    ∀ (rs : List Relocation) (b : List Bool),
      (∀ r ∈ rs, ∃ S, p.findSymbol r.symbol = some S) →
      (∀ r ∈ rs, r.address + 16 ≤ b.length ∨ b.length ≤ r.address) →
      ((∃ nm, relocFold p w rs b = some (.error (.relocationOutOfRange nm))) ↔
        ∃ r ∈ rs, ∃ S, p.findSymbol r.symbol = some S ∧
          (65536 < relocWordOffset S r w ∨ relocWordOffset S r w < -65536)) := by
  intro rs
  induction rs with
  | nil => intro b _ _; simp [relocFold]
  | cons r rs ih =>
    intro b hres hsites
    obtain ⟨S, hfs⟩ := hres r (List.mem_cons_self r rs)
    by_cases hoor : 65536 < relocWordOffset S r w ∨ relocWordOffset S r w < -65536
    · have hfold : relocFold p w (r :: rs) b
          = some (.error (.relocationOutOfRange r.symbol)) := by
        simp [relocFold, relocStep, hfs, if_pos hoor]
      exact iff_of_true ⟨r.symbol, hfold⟩ ⟨r, List.mem_cons_self r rs, S, hfs, hoor⟩
    · have hb1 : ∃ b1, write16 b r.address
          ((index16 b r.address + u16ofInt (relocWordOffset S r w)) % 65536) = some b1 ∧
          b1.length = b.length := by
        rcases hsites r (List.mem_cons_self r rs) with hc | hc
        · obtain ⟨b1, hw, hl, _, _⟩ := write16_inrange b r.address _ hc
          exact ⟨b1, hw, hl⟩
        · exact ⟨b, write16_noop b r.address _ hc, rfl⟩
      obtain ⟨b1, hw, hlb1⟩ := hb1
      have hfoldstep : relocFold p w (r :: rs) b = relocFold p w rs b1 := by
        simp [relocFold, relocStep, hfs, if_neg hoor, hw]
      have hres2 : ∀ r2 ∈ rs, ∃ S2, p.findSymbol r2.symbol = some S2 :=
        fun r2 hr2 => hres r2 (List.mem_cons_of_mem r hr2)
      have hsites2 : ∀ r2 ∈ rs, r2.address + 16 ≤ b1.length ∨ b1.length ≤ r2.address := by
        intro r2 hr2
        rw [hlb1]
        exact hsites r2 (List.mem_cons_of_mem r hr2)
      rw [hfoldstep, ih b1 hres2 hsites2]
      constructor
      · rintro ⟨r2, hr2, S2, hfs2, hoor2⟩
        exact ⟨r2, List.mem_cons_of_mem r hr2, S2, hfs2, hoor2⟩
      · rintro ⟨r2, hr2, S2, hfs2, hoor2⟩
        rcases List.mem_cons.mp hr2 with he | hm
        · subst he
          rw [hfs] at hfs2
          injection hfs2 with he2
          subst he2
          exact absurd hoor2 hoor
        · exact ⟨r2, hm, S2, hfs2, hoor2⟩

/-! ### Claim C3 -/

/-- C3 (amended, confirmed): for a text section whose relocations all
resolve and whose relocation sites lie either fully inside the buffer or
fully beyond its end, to_segment fails with RelocationOutOfRange exactly
when the signed instruction-word offset of some relocation exceeds 2^16 in
absolute value; with every offset within plus/minus 65536 no such error is
raised. -/
theorem to_segment_out_of_range_iff (p : Placement) (t : TextSection) (off : Nat)
    (hres : ∀ r ∈ t.relocations, ∃ S, p.findSymbol r.symbol = some S)
    (hsites : ∀ r ∈ t.relocations,
      r.address + 16 ≤ t.data.length ∨ t.data.length ≤ r.address) :
    (∃ nm, Section.toSegment (.text t) p off = some (.error (.relocationOutOfRange nm))) ↔
      ∃ r ∈ t.relocations, ∃ S, p.findSymbol r.symbol = some S ∧
        (65536 < relocWordOffset S r (textByteWidth p.architecture) ∨
          relocWordOffset S r (textByteWidth p.architecture) < -65536) := by
  have hiff := relocFold_oor p (textByteWidth p.architecture) t.relocations t.data hres hsites
  constructor
  · rintro ⟨nm, hseg⟩
    exact hiff.mp ⟨nm, (toSegment_error_iff t p off _).mp hseg⟩
  · intro hr
    obtain ⟨nm, hf⟩ := hiff.mpr hr
    exact ⟨nm, (toSegment_error_iff t p off _).mpr hf⟩

/-- C3 (witness): the theorem applied to exFarText, whose single relocation
resolves to word offset 100000: both sides of the equivalence hold and
to_segment indeed fails with RelocationOutOfRange. -/
theorem to_segment_out_of_range_iff_witness :
    ((∃ nm, Section.toSegment (.text exFarText) exFarPlacement 0
        = some (.error (.relocationOutOfRange nm))) ↔
      ∃ r ∈ exFarText.relocations, ∃ S,
        Placement.findSymbol exFarPlacement r.symbol = some S ∧
          (65536 < relocWordOffset S r (textByteWidth exFarPlacement.architecture) ∨
            relocWordOffset S r (textByteWidth exFarPlacement.architecture) < -65536)) ∧
    Section.toSegment (.text exFarText) exFarPlacement 0
      = some (.error (.relocationOutOfRange [66])) :=
  ⟨to_segment_out_of_range_iff exFarPlacement exFarText 0
    (by
      intro r hr
      simp only [exFarText, List.mem_singleton] at hr
      subst hr
      exact ⟨600000, by decide⟩)
    (by decide),
   by decide⟩

/-! ### Symbol-lookup lemmas (claim C1) -/

theorem findSymbolInList_none_iff (syms : List Symbol) (name : List Nat) (off : Nat) :
    findSymbolInList syms name off = none ↔ ∀ s ∈ syms, s.name ≠ name := by
  induction syms with
  | nil => simp [findSymbolInList]
  | cons x rest ih =>
    by_cases hx : x.name = name
    · simp [findSymbolInList, hx]
    · simp [findSymbolInList, hx, ih]

theorem findSymbolInList_some_iff (syms : List Symbol) (name : List Nat) (off : Nat)
    (a : Nat) :
    findSymbolInList syms name off = some a ↔
      ∃ pre s post, syms = pre ++ s :: post ∧ s.name = name ∧
        (∀ y ∈ pre, y.name ≠ name) ∧ a = s.address + off := by
  induction syms with
  | nil =>
    simp only [findSymbolInList]
    constructor
    · intro h
      exact absurd h (by simp)
    · rintro ⟨pre, s, post, h, -, -, -⟩
      cases pre <;> simp at h
  | cons x rest ih =>
    by_cases hx : x.name = name
    · simp only [findSymbolInList, if_pos hx, Option.some.injEq]
      constructor
      · intro h
        exact ⟨[], x, rest, rfl, hx, by simp, h.symm⟩
      · rintro ⟨pre, s, post, heq, hs, hpre, ha⟩
        cases pre with
        | nil =>
          simp only [List.nil_append, List.cons.injEq] at heq
          rw [ha, heq.1]
        | cons q pre2 =>
          simp only [List.cons_append, List.cons.injEq] at heq
          exact absurd (heq.1 ▸ hx) (hpre q (List.mem_cons_self q pre2))
    · simp only [findSymbolInList, if_neg hx]
      rw [ih]
      constructor
      · rintro ⟨pre, s, post, heq, hs, hpre, ha⟩
        refine ⟨x :: pre, s, post, by rw [heq, List.cons_append], hs, ?_, ha⟩
        intro y hy
        rcases List.mem_cons.mp hy with hy | hy
        · rw [hy]; exact hx
        · exact hpre y hy
      · rintro ⟨pre, s, post, heq, hs, hpre, ha⟩
        cases pre with
        | nil =>
          simp only [List.nil_append, List.cons.injEq] at heq
          exact absurd (heq.1 ▸ hs) hx
        | cons q pre2 =>
          simp only [List.cons_append, List.cons.injEq] at heq
          refine ⟨pre2, s, post, heq.2, hs, ?_, ha⟩
          exact fun y hy => hpre y (List.mem_cons_of_mem q hy)

theorem findSymbolInSections_none_iff (secs : List PlacedSection) (name : List Nat) :
    findSymbolInSections secs name = none ↔
      ∀ ps ∈ secs, ∀ s ∈ ps.«section».symbols, s.name ≠ name := by
  induction secs with
  | nil => simp [findSymbolInSections]
  | cons ps rest ih =>
    cases hf : ps.findSymbol name with
    | some b =>
      simp only [findSymbolInSections, hf]
      obtain ⟨pre, s, post, heq, hs, -, -⟩ :=
        (findSymbolInList_some_iff ps.«section».symbols name ps.offset b).mp hf
      constructor
      · intro h
        exact absurd h (by simp)
      · intro h
        exact absurd hs (h ps (List.mem_cons_self ps rest) s (by rw [heq]; simp))
    | none =>
      simp only [findSymbolInSections, hf]
      rw [ih]
      have hnone := (findSymbolInList_none_iff ps.«section».symbols name ps.offset).mp hf
      constructor
      · intro h
        intro q hq
        rcases List.mem_cons.mp hq with hq | hq
        · rw [hq]; exact hnone
        · exact h q hq
      · intro h q hq
        exact h q (List.mem_cons_of_mem ps hq)

theorem findSymbolInSections_some_iff (secs : List PlacedSection) (name : List Nat) (a : Nat) :
    findSymbolInSections secs name = some a ↔
      ∃ pre ps post, secs = pre ++ ps :: post ∧
        (∀ q ∈ pre, ∀ s ∈ q.«section».symbols, s.name ≠ name) ∧
        ∃ pre2 s post2, ps.«section».symbols = pre2 ++ s :: post2 ∧ s.name = name ∧
          (∀ y ∈ pre2, y.name ≠ name) ∧ a = s.address + ps.offset := by
  induction secs with
  | nil =>
    simp only [findSymbolInSections]
    constructor
    · intro h
      exact absurd h (by simp)
    · rintro ⟨pre, ps, post, h, -, -⟩
      cases pre <;> simp at h
  | cons p0 rest ih =>
    cases hf : p0.findSymbol name with
    | some b =>
      simp only [findSymbolInSections, hf, Option.some.injEq]
      constructor
      · intro h
        obtain ⟨pre2, s, post2, heq2, hs, hpre2, hb⟩ :=
          (findSymbolInList_some_iff p0.«section».symbols name p0.offset b).mp hf
        exact ⟨[], p0, rest, rfl, by simp, pre2, s, post2, heq2, hs, hpre2, by rw [← h, hb]⟩
      · rintro ⟨pre, ps, post, heq, hpre, pre2, s, post2, heq2, hs, hpre2, ha⟩
        cases pre with
        | nil =>
          simp only [List.nil_append, List.cons.injEq] at heq
          have hsome : p0.findSymbol name = some (s.address + ps.offset) := by
            rw [heq.1]
            exact (findSymbolInList_some_iff ps.«section».symbols name ps.offset _).mpr
              ⟨pre2, s, post2, heq2, hs, hpre2, rfl⟩
          rw [hf] at hsome
          injection hsome with hb
          rw [ha, ← hb]
        | cons q pre3 =>
          simp only [List.cons_append, List.cons.injEq] at heq
          have hq0 : ∀ s2 ∈ p0.«section».symbols, s2.name ≠ name := by
            rw [heq.1]
            exact hpre q (List.mem_cons_self q pre3)
          have : p0.findSymbol name = none :=
            (findSymbolInList_none_iff p0.«section».symbols name p0.offset).mpr hq0
          rw [hf] at this
          exact absurd this (by simp)
    | none =>
      simp only [findSymbolInSections, hf]
      rw [ih]
      have hnone := (findSymbolInList_none_iff p0.«section».symbols name p0.offset).mp hf
      constructor
      · rintro ⟨pre, ps, post, heq, hpre, hinner⟩
        refine ⟨p0 :: pre, ps, post, by rw [heq, List.cons_append], ?_, hinner⟩
        intro q hq
        rcases List.mem_cons.mp hq with hq | hq
        · rw [hq]; exact hnone
        · exact hpre q hq
      · rintro ⟨pre, ps, post, heq, hpre, pre2, s, post2, heq2, hs, hpre2, ha⟩
        cases pre with
        | nil =>
          simp only [List.nil_append, List.cons.injEq] at heq
          have : s.name ≠ name := by
            rw [heq.1] at hnone
            exact hnone s (by rw [heq2]; simp)
          exact absurd hs this
        | cons q pre3 =>
          simp only [List.cons_append, List.cons.injEq] at heq
          refine ⟨pre3, ps, post, heq.2, ?_, pre2, s, post2, heq2, hs, hpre2, ha⟩
          exact fun q2 hq2 => hpre q2 (List.mem_cons_of_mem q hq2)

/-! ### Claim C1 -/

/-- C1 (amended, confirmed): Placement::find_symbol returns Some exactly
when some placed section owns a symbol with the given name; the result comes
from the first matching symbol of the first matching section in placement
order, and equals the section-relative bit address of that symbol plus the
placement offset of the section added directly (the offset is stored in
text-bytes and is not multiplied by the text-byte width). -/
theorem find_symbol_first_match_spec (p : Placement) (name : List Nat) :
    (Placement.findSymbol p name = none ↔
      ∀ ps ∈ p.sections, ∀ s ∈ ps.«section».symbols, s.name ≠ name) ∧
    ∀ a, Placement.findSymbol p name = some a ↔
      ∃ pre ps post, p.sections = pre ++ ps :: post ∧
        (∀ q ∈ pre, ∀ s ∈ q.«section».symbols, s.name ≠ name) ∧
        ∃ pre2 s post2, ps.«section».symbols = pre2 ++ s :: post2 ∧ s.name = name ∧
          (∀ y ∈ pre2, y.name ≠ name) ∧ a = s.address + ps.offset :=
  ⟨findSymbolInSections_none_iff p.sections name,
   fun a => findSymbolInSections_some_iff p.sections name a⟩

/-- C1 (witness): the characterisation applied to the concrete two-section
placement: the symbol S of the second section (placed at text-byte offset 3)
resolves to bit address 0 + 3 = 3. -/
theorem find_symbol_first_match_spec_witness :
    Placement.findSymbol exPlacement [83] = some 3 :=
  ((find_symbol_first_match_spec exPlacement [83]).2 3).mpr
    ⟨[{ «section» := exA, offset := 0 }], { «section» := exB, offset := 3 }, [],
      by decide, by decide,
      [], { name := [83], address := 0 }, [], by decide, rfl, by decide, rfl⟩

end Binutils
